import Mathlib

/-
  Verification development for the immer core (src/immer.ts).

  The embedding models JavaScript values with identity as references into an
  explicit heap.  Draft States, scopes, hooks and the patch lists live in a
  Machine record that is threaded through every operation.  Functions of
  src/immer.ts are translated directly; collaborators that live outside the
  given sources (scope.ts, es5.ts, proxy.ts, common.ts, patches.ts) are
  modelled from the specification and marked as such in their doc comments.

  Fallible steps return an Outcome that carries the machine both on success
  and on failure, mirroring exceptions that propagate past side effects.
  Recursive tree walks take an explicit fuel argument; exhausting fuel is
  reported as a distinguished error that no theorem confuses with program
  behaviour.  Promises (asynchronous recipes) are outside this model: recipes
  return synchronously.
-/

namespace ImmerModel

/-- A JavaScript value: undefined, the NOTHING sentinel exported by common.ts,
primitive numbers and strings, or a reference (with identity) to a heap object. -/
inductive JSVal where
  | undef
  | nothing
  | num (n : Int)
  | str (s : String)
  | ref (id : Nat)
deriving DecidableEq, Repr

/-- Patch operation tag, as in the Patch format of the spec. -/
inductive POp where
  | add
  | replace
  | remove
deriving DecidableEq, Repr

/-- A structural edit operation; for a remove the value is undef. -/
structure Patch where
  op : POp
  path : List JSVal
  value : JSVal
deriving DecidableEq, Repr

/-- The per-draft metadata record (ImmerState in types.ts):
base, lazily materialized copy (undef while absent), owning scope,
modified/finalized flags, the draft object itself, and the assigned-keys map. -/
structure DState where
  base : JSVal
  copy : JSVal
  scope : Nat
  modified : Bool
  finalized : Bool
  draft : JSVal
  assigned : List (JSVal × Bool)
deriving DecidableEq, Repr

/-- Container kind of a heap object: plain record, array, Map, Set, or a
non-draftable object. -/
inductive ObjKind where
  | record
  | sequence
  | assocK
  | uniqueK
  | otherK
deriving DecidableEq, Repr

/-- A heap object: kind, ordered fields, frozen flag, and the optional
Draft State attached under the hidden DRAFT_STATE property. -/
structure Obj where
  kind : ObjKind
  fields : List (JSVal × JSVal)
  frozen : Bool
  state : Option DState
deriving DecidableEq, Repr

/-- A production scope (ImmerScope in scope.ts, modelled from the spec):
parent link, drafts created while open, optional patch lists, listener
presence, the canAutoFreeze flag and a revoked flag. -/
structure ScopeData where
  parent : Option Nat
  drafts : List JSVal
  patches : Option (List Patch)
  inversePatches : Option (List Patch)
  patchListener : Bool
  canAutoFreeze : Bool
  revoked : Bool
deriving DecidableEq, Repr

/-- A recorded invocation of one of the onAssign/onDelete/onCopy hooks. -/
inductive HookCall where
  | hassign (id : Nat) (k v : JSVal)
  | hdelete (id : Nat) (k : JSVal)
  | hcopy (id : Nat)
deriving DecidableEq, Repr

/-- The whole machine: object heap, scope table, current scope, the Immer
configuration flags, hook/listener logs, and a ghost log of every assignment
made to some Draft State's copy field (recording the object id). -/
structure Machine where
  heap : List (Nat × Obj)
  nextId : Nat
  scopes : List (Nat × ScopeData)
  nextScope : Nat
  currentScope : Option Nat
  useProxies : Bool
  autoFreeze : Bool
  onAssignHook : Bool
  onDeleteHook : Bool
  onCopyHook : Bool
  hookLog : List HookCall
  listenerCalls : List (List Patch × List Patch)
  copyLog : List Nat
deriving DecidableEq, Repr

/-- Errors: the immer error taxonomy plus fuel exhaustion and a stuck state
for JavaScript crashes that the model does not represent. -/
inductive Err where
  | circularRef
  | recipeReturnedAndModified
  | invalidRecipeArg
  | invalidListenerArg
  | listenerToPWP
  | fuelOut
  | stuck
deriving DecidableEq, Repr

/-- Result of a fallible step: the machine is carried on both branches, so
state mutated before a throw stays observable. -/
inductive Outcome (α : Type) where
  | ok (a : α) (m : Machine)
  | err (e : Err) (m : Machine)
deriving DecidableEq, Repr

/-- Machine component of an outcome. -/
def Outcome.mach {α : Type} : Outcome α → Machine
  | .ok _ m => m
  | .err _ m => m

/-- Association-list lookup by numeric id. -/
def alookup {α : Type} : List (Nat × α) → Nat → Option α
  | [], _ => none
  | (k, v) :: rest, id => if k = id then some v else alookup rest id

/-- Association-list pointwise update by numeric id. -/
def aupdate {α : Type} : List (Nat × α) → Nat → (α → α) → List (Nat × α)
  | [], _, _ => []
  | (k, v) :: rest, id, f =>
      if k = id then (k, f v) :: rest else (k, v) :: aupdate rest id f

/-- Field lookup inside an object by key identity. -/
def flookup : List (JSVal × JSVal) → JSVal → Option JSVal
  | [], _ => none
  | (k, v) :: rest, key => if k = key then some v else flookup rest key

/-- Field write: update in place or append. -/
def fset : List (JSVal × JSVal) → JSVal → JSVal → List (JSVal × JSVal)
  | [], key, v => [(key, v)]
  | (k, w) :: rest, key, v =>
      if k = key then (k, v) :: rest else (k, w) :: fset rest key v

/-- Field removal by key. -/
def fdel : List (JSVal × JSVal) → JSVal → List (JSVal × JSVal)
  | [], _ => []
  | (k, w) :: rest, key => if k = key then fdel rest key else (k, w) :: fdel rest key

/-- Assigned-keys write (key to presence flag). -/
def fsetB : List (JSVal × Bool) → JSVal → Bool → List (JSVal × Bool)
  | [], key, b => [(key, b)]
  | (k, w) :: rest, key, b =>
      if k = key then (k, b) :: rest else (k, w) :: fsetB rest key b

/-- Membership in the assigned-keys record (common.ts has). -/
def fhasB : List (JSVal × Bool) → JSVal → Bool
  | [], _ => false
  | (k, _) :: rest, key => if k = key then true else fhasB rest key

/-- The heap object a value refers to, if any. -/
def objOf (m : Machine) (v : JSVal) : Option Obj :=
  match v with
  | .ref id => alookup m.heap id
  | _ => none

/-- The Draft State of a value (value[DRAFT_STATE] in the source). -/
def stateOf (m : Machine) (v : JSVal) : Option DState :=
  (objOf m v).bind (·.state)

/-- isDraft from common.ts: the value carries a Draft State. -/
def isDraftB (m : Machine) (v : JSVal) : Bool :=
  (stateOf m v).isSome

/-- isDraftable from common.ts, modelled through the stored container kind:
plain records, arrays, Maps and Sets are draftable composites. -/
def isDraftableB (m : Machine) (v : JSVal) : Bool :=
  match objOf m v with
  | some o => o.kind != ObjKind.otherK
  | none => false

/-- isMap from common.ts. -/
def isMapB (m : Machine) (v : JSVal) : Bool :=
  match objOf m v with
  | some o => o.kind == ObjKind.assocK
  | none => false

/-- isSet from common.ts. -/
def isSetB (m : Machine) (v : JSVal) : Bool :=
  match objOf m v with
  | some o => o.kind == ObjKind.uniqueK
  | none => false

/-- Object.isFrozen: true on non-objects, the frozen flag on heap objects. -/
def isFrozenB (m : Machine) (v : JSVal) : Bool :=
  match v with
  | .ref id =>
      match alookup m.heap id with
      | some o => o.frozen
      | none => true
  | _ => true

/-- Property read (common.ts get): undef when absent. -/
def getField (m : Machine) (container k : JSVal) : JSVal :=
  match objOf m container with
  | some o => (flookup o.fields k).getD JSVal.undef
  | none => JSVal.undef

/-- The keys of a container, in field order (Object.keys / Map keys /
Set members), snapshotted when a walk begins. -/
def keysOf (m : Machine) (v : JSVal) : List JSVal :=
  match objOf m v with
  | some o => o.fields.map (·.1)
  | none => []

/-- The id a reference points at (0 as a junk default for non-references). -/
def refId : JSVal → Nat
  | .ref id => id
  | _ => 0

/-- Heap update of one object. -/
def updateObjM (m : Machine) (id : Nat) (f : Obj → Obj) : Machine :=
  { m with heap := aupdate m.heap id f }

/-- Update of the Draft State stored on one object. -/
def setStateF (m : Machine) (id : Nat) (f : DState → DState) : Machine :=
  updateObjM m id (fun o => { o with state := o.state.map f })

/-- Assignment to a Draft State's copy field; the ghost copyLog records it. -/
def assignCopy (m : Machine) (id : Nat) (v : JSVal) : Machine :=
  let m1 := setStateF m id (fun st => { st with copy := v })
  { m1 with copyLog := m1.copyLog ++ [id] }

/-- Scope lookup. -/
def scopeOf (m : Machine) (sid : Nat) : Option ScopeData :=
  alookup m.scopes sid

/-- Scope update. -/
def updScope (m : Machine) (sid : Nat) (f : ScopeData → ScopeData) : Machine :=
  { m with scopes := aupdate m.scopes sid f }

/-- The canAutoFreeze flag of a scope (false when the scope is unknown). -/
def canAutoFreezeB (m : Machine) (sid : Nat) : Bool :=
  ((scopeOf m sid).map (·.canAutoFreeze)).getD false

/-- Whether the scope has patch lists allocated (scope.patches truthiness:
an empty array is truthy). -/
def scopePatchesPresent (m : Machine) (sid : Nat) : Bool :=
  ((scopeOf m sid).map (·.patches.isSome)).getD false

/-- The patches list of a scope. -/
def scopePatches (m : Machine) (sid : Nat) : Option (List Patch) :=
  (scopeOf m sid).bind (·.patches)

/-- The inverse patches list of a scope. -/
def scopeInv (m : Machine) (sid : Nat) : Option (List Patch) :=
  (scopeOf m sid).bind (·.inversePatches)

/-- The revoked flag of a scope. -/
def scopeRevoked (m : Machine) (sid : Nat) : Bool :=
  ((scopeOf m sid).map (·.revoked)).getD false

/-- Allocation of a fresh heap object; returns its id. -/
def allocObj (m : Machine) (o : Obj) : Nat × Machine :=
  (m.nextId, { m with heap := m.heap ++ [(m.nextId, o)], nextId := m.nextId + 1 })

/-- shallowCopy from common.ts (modelled from the spec: a generic utility
that clones one container level; reading through draft accessors yields the
draft's current children, no Draft State on the clone). -/
def shallowCopyOf (m : Machine) (src : JSVal) : JSVal × Machine :=
  match objOf m src with
  | some o =>
      let p := allocObj m { kind := o.kind, fields := o.fields, frozen := false, state := none }
      (JSVal.ref p.1, p.2)
  | none => (src, m)

end ImmerModel

namespace ImmerModel

/-- Modelled from the spec: the deep-freeze generic utility (freeze in
common.ts, listed in the spec as an out-of-scope generic utility).  It marks a
draftable, non-draft, not-yet-frozen object immutable and, when deep, recurses
into its children; fuel bounds the recursion depth. -/
def freezeRec : Nat → Machine → JSVal → Bool → Machine
  | 0, m, _, _ => m
  | fuel+1, m, v, deep =>
      match v with
      | .ref id =>
          match alookup m.heap id with
          | some o =>
              if o.kind == ObjKind.otherK || o.state.isSome || o.frozen then m
              else
                let m1 := updateObjM m id (fun q => { q with frozen := true })
                if deep then o.fields.foldl (fun acc kv => freezeRec fuel acc kv.2 true) m1
                else m1
          | none => m
      | _ => m

/-- maybeFreeze from src/immer.ts: freeze only when autoFreeze is on and the
value is not a draft. -/
def maybeFreeze (fuel : Nat) (m : Machine) (v : JSVal) (deep : Bool) : Machine :=
  if m.autoFreeze && !(isDraftB m v) then freezeRec fuel m v deep else m

/-- The replace helper from src/immer.ts: write a finalized child back into
its parent with the container-appropriate operation (Map set; Set delete of
the draft member then add; otherwise property assignment — enumerable
assignment and defineProperty coincide in this model). -/
def replaceOp (m : Machine) (parent prop value : JSVal) : Machine :=
  match parent with
  | .ref id =>
      match alookup m.heap id with
      | some o =>
          match o.kind with
          | .assocK => updateObjM m id (fun q => { q with fields := fset q.fields prop value })
          | .uniqueK => updateObjM m id (fun q => { q with fields := fset (fdel q.fields prop) value value })
          | _ => updateObjM m id (fun q => { q with fields := fset q.fields prop value })
      | none => m
  | _ => m

/-- The onAssign tail of finalizeProperty: the hook fires for direct children
of the root draft, never for Set members. -/
def assignTail (m : Machine) (st0 : Option DState) (isDraftProp isSetMember : Bool)
    (prop v : JSVal) : Machine :=
  if isDraftProp && m.onAssignHook && !isSetMember then
    { m with hookLog := m.hookLog ++ [HookCall.hassign (refId ((st0.map (·.draft)).getD JSVal.undef)) prop v] }
  else m

/-- The onDelete dispatch of Immer.finalize: with proxies it reports assigned
keys recorded absent; in the fallback it reports base keys missing from the
copy; never for Sets. -/
def runOnDelete (m : Machine) (draft : JSVal) : Machine :=
  if m.onDeleteHook then
    match stateOf m draft with
    | some st =>
        if isSetB m st.base then m
        else if m.useProxies then
          st.assigned.foldl
            (fun (acc : Machine) kv =>
              if kv.2 then acc
              else { acc with hookLog := acc.hookLog ++ [HookCall.hdelete (refId st.draft) kv.1] }) m
        else
          (keysOf m st.base).foldl
            (fun (acc : Machine) k =>
              match objOf acc st.copy with
              | some o =>
                  if (flookup o.fields k).isSome then acc
                  else { acc with hookLog := acc.hookLog ++ [HookCall.hdelete (refId st.draft) k] }
              | none => acc) m
    | none => m
  else m

/-- The onCopy dispatch of Immer.finalize. -/
def runOnCopy (m : Machine) (draft : JSVal) : Machine :=
  if m.onCopyHook then { m with hookLog := m.hookLog ++ [HookCall.hcopy (refId draft)] }
  else m

/-- Modelled from the spec: generatePatches from the Patch Engine (patches.ts
is not among the given sources).  It records the structural diff of this
node — add for keys new in the copy, replace for changed keys, remove for
keys deleted from the base — onto the scope's patch lists, with inverses. -/
def genPatches (m : Machine) (sid : Nat) (st : DState) (path : List JSVal) : Machine :=
  let baseFields := ((objOf m st.base).map (·.fields)).getD []
  let copyFields := ((objOf m st.copy).map (·.fields)).getD []
  let changed : List (Patch × Patch) := copyFields.filterMap (fun kv =>
      match flookup baseFields kv.1 with
      | none =>
          some ({ op := POp.add, path := path ++ [kv.1], value := kv.2 },
                { op := POp.remove, path := path ++ [kv.1], value := JSVal.undef })
      | some w =>
          if w = kv.2 then none
          else some ({ op := POp.replace, path := path ++ [kv.1], value := kv.2 },
                     { op := POp.replace, path := path ++ [kv.1], value := w }))
  let removed : List (Patch × Patch) := baseFields.filterMap (fun kv =>
      match flookup copyFields kv.1 with
      | some _ => none
      | none =>
          some ({ op := POp.remove, path := path ++ [kv.1], value := JSVal.undef },
                { op := POp.add, path := path ++ [kv.1], value := kv.2 }))
  let ps := (changed ++ removed).map (·.1)
  let ips := (changed ++ removed).map (·.2)
  updScope m sid (fun sc =>
    { sc with patches := sc.patches.map (· ++ ps),
              inversePatches := sc.inversePatches.map (· ++ ips) })

/-- Call shapes of the mutually recursive finalization walk: finalize, the
finalizeTree entry, the key loop of each, and one finalizeProperty visit. -/
inductive FCall where
  | fin (draft : JSVal) (path : Option (List JSVal)) (sid : Nat)
  | tree (root : JSVal) (rootPath : Option (List JSVal)) (sid : Nat)
  | props (ks : List JSVal) (st0 : Option DState) (rootV : JSVal) (needPatches : Bool)
      (rootPath : Option (List JSVal)) (sid : Nat) (parentV : JSVal)
  | prop (st0 : Option DState) (rootV : JSVal) (needPatches : Bool)
      (rootPath : Option (List JSVal)) (sid : Nat) (propK value parentV : JSVal)

/-- The hook/freeze/patch sequence that Immer.finalize runs after the tree
walk of a modified draft (src/immer.ts lines 342-371). -/
def finTail (fz : Nat) (m2 : Machine) (draft : JSVal) (path : Option (List JSVal))
    (sid : Nat) : Machine :=
  let m3 := runOnDelete m2 draft
  let m4 := runOnCopy m3 draft
  let m5 :=
    if m4.autoFreeze && canAutoFreezeB m4 sid then
      freezeRec fz m4 (((stateOf m4 draft).map (·.copy)).getD JSVal.undef) false
    else m4
  if path.isSome && scopePatchesPresent m5 sid then
    match stateOf m5 draft, path with
    | some s3, some p => genPatches m5 sid s3 p
    | _, _ => m5
  else m5

/-- The body of Immer.finalize (src/immer.ts lines 324-373), with the
recursive call and the fuel for freeze passed explicitly. -/
def finBody (rec : Machine → FCall → Outcome JSVal) (fz : Nat) (m : Machine)
    (draft : JSVal) (path : Option (List JSVal)) (sid : Nat) : Outcome JSVal :=
  match stateOf m draft with
  | none =>
      if isFrozenB m draft then .ok draft m
      else rec m (.tree draft none sid)
  | some st =>
      if st.scope ≠ sid then .ok draft m
      else if st.modified = false then .ok st.base (maybeFreeze fz m st.base true)
      else if st.finalized then .ok st.copy m
      else
        let m1 := setStateF m (refId draft) (fun s => { s with finalized := true })
        match rec m1 (.tree st.draft path sid) with
        | .err e m2 => .err e m2
        | .ok _ m2 =>
            let m6 := finTail fz m2 draft path sid
            match stateOf m6 draft with
            | some s4 => .ok s4.copy m6
            | none => .err .stuck m6

/-- The entry of Immer.finalizeTree (src/immer.ts lines 379-395 and 441-442):
in the fallback mode the final copy is created from the draft (a second
materialization of copy); the walk then runs over the resulting root. -/
def treeBody (rec : Machine → FCall → Outcome JSVal) (m : Machine) (rootIn : JSVal)
    (rootPath : Option (List JSVal)) (sid : Nat) : Outcome JSVal :=
  let st0 := stateOf m rootIn
  let pr : Machine × JSVal :=
    match st0 with
    | some st =>
        if !m.useProxies && !(isMapB m rootIn) && !(isSetB m rootIn) then
          let q := shallowCopyOf m st.draft
          (assignCopy q.2 (refId rootIn) q.1, q.1)
        else (m, st.copy)
    | none => (m, rootIn)
  let m1 := pr.1
  let root := pr.2
  let needPatches := rootPath.isSome && scopePatchesPresent m1 sid
  match rec m1 (.props (keysOf m1 root) st0 root needPatches rootPath sid root) with
  | .err e m2 => .err e m2
  | .ok _ m2 => .ok root m2

/-- The key loop of each over a container during the tree walk: the keys were
snapshotted at entry, the child value is read at visit time. -/
def propsBody (rec : Machine → FCall → Outcome JSVal) (m : Machine) (ks : List JSVal)
    (st0 : Option DState) (rootV : JSVal) (np : Bool) (rp : Option (List JSVal))
    (sid : Nat) (parentV : JSVal) : Outcome JSVal :=
  match ks with
  | [] => .ok JSVal.undef m
  | k :: rest =>
      match rec m (.prop st0 rootV np rp sid k (getField m parentV k) parentV) with
      | .err e m1 => .err e m1
      | .ok _ m1 => rec m1 (.props rest st0 rootV np rp sid parentV)

/-- The body of the finalizeProperty closure (src/immer.ts lines 396-439). -/
def propBody (rec : Machine → FCall → Outcome JSVal) (fz : Nat) (m : Machine)
    (st0 : Option DState) (rootV : JSVal) (needPatches : Bool)
    (rootPath : Option (List JSVal)) (sid : Nat) (prop value parentV : JSVal) : Outcome JSVal :=
  if value = parentV then .err .circularRef m
  else
    let isDraftProp := st0.isSome && (parentV == rootV)
    let isSetMember := isSetB m parentV
    if isDraftB m value then
      let path : Option (List JSVal) :=
        if isDraftProp && needPatches && !isSetMember
            && !(fhasB ((st0.map (·.assigned)).getD []) prop) then
          some ((rootPath.getD []) ++ [prop])
        else none
      match rec m (.fin value path sid) with
      | .err e m1 => .err e m1
      | .ok v2 m1 =>
          let m2 := replaceOp m1 parentV prop v2
          let m3 :=
            if isDraftB m2 v2 then
              updScope m2 sid (fun sc => { sc with canAutoFreeze := false })
            else m2
          .ok JSVal.undef (assignTail m3 st0 isDraftProp isSetMember prop v2)
    else if isDraftProp && (value == getField m ((st0.map (·.base)).getD JSVal.undef) prop) then
      .ok JSVal.undef m
    else if isDraftableB m value && !(isFrozenB m value) then
      match rec m (.props (keysOf m value) st0 rootV needPatches rootPath sid value) with
      | .err e m1 => .err e m1
      | .ok _ m1 =>
          let m2 := maybeFreeze fz m1 value false
          .ok JSVal.undef (assignTail m2 st0 isDraftProp isSetMember prop value)
    else
      .ok JSVal.undef (assignTail m st0 isDraftProp isSetMember prop value)

/-- The finalization engine, a direct translation of Immer.finalize,
Immer.finalizeTree and its finalizeProperty closure (src/immer.ts lines
324-443); the four call shapes recurse through one fuel-indexed function so
that evaluation stays kernel-reducible. -/
def finStep : Nat → Machine → FCall → Outcome JSVal
  | 0, m, _ => .err .fuelOut m
  | fuel+1, m, .fin draft path sid => finBody (finStep fuel) fuel m draft path sid
  | fuel+1, m, .tree rootIn rootPath sid => treeBody (finStep fuel) m rootIn rootPath sid
  | fuel+1, m, .props ks st0 rootV np rp sid parentV =>
      propsBody (finStep fuel) m ks st0 rootV np rp sid parentV
  | fuel+1, m, .prop st0 rootV np rp sid prop value parentV =>
      propBody (finStep fuel) fuel m st0 rootV np rp sid prop value parentV

/-- Immer.finalize (src/immer.ts lines 324-373). -/
def finalize (fuel : Nat) (m : Machine) (draft : JSVal) (path : Option (List JSVal))
    (sid : Nat) : Outcome JSVal :=
  finStep fuel m (.fin draft path sid)

/-- Immer.finalizeTree (src/immer.ts lines 379-443). -/
def finalizeTree (fuel : Nat) (m : Machine) (root : JSVal) (rootPath : Option (List JSVal))
    (sid : Nat) : Outcome JSVal :=
  finStep fuel m (.tree root rootPath sid)

/-- One visit of the finalizeProperty closure inside Immer.finalizeTree
(src/immer.ts lines 396-439); the captured state, root, needPatches, rootPath
and scope appear as explicit arguments. -/
def finalizeProperty (fuel : Nat) (m : Machine) (st0 : Option DState) (rootV : JSVal)
    (needPatches : Bool) (rootPath : Option (List JSVal)) (sid : Nat)
    (propK value parentV : JSVal) : Outcome JSVal :=
  finStep fuel m (.prop st0 rootV needPatches rootPath sid propK value parentV)

end ImmerModel

namespace ImmerModel

/-- Modelled from the spec: ImmerScope.enter (scope.ts) — pushes and returns
a new scope whose parent is the current one; drafts start empty, patch lists
unallocated, canAutoFreeze true. -/
def enterScope (m : Machine) : Nat × Machine :=
  let sid := m.nextScope
  let sc : ScopeData :=
    { parent := m.currentScope, drafts := [], patches := none, inversePatches := none,
      patchListener := false, canAutoFreeze := true, revoked := false }
  (sid, { m with scopes := m.scopes ++ [(sid, sc)], nextScope := m.nextScope + 1,
                 currentScope := some sid })

/-- Modelled from the spec: ImmerScope.leave (scope.ts) — pops the scope when
it is the current one. -/
def leaveScope (m : Machine) (sid : Nat) : Machine :=
  if m.currentScope = some sid then
    { m with currentScope := (scopeOf m sid).bind (·.parent) }
  else m

/-- Modelled from the spec: ImmerScope.revoke (scope.ts) — "pops and discards
all drafts created in it, used on any failure path so no partial copy is
observable"; the scope is marked revoked and left. -/
def revokeScope (m : Machine) (sid : Nat) : Machine :=
  let m1 := updScope m sid (fun sc => { sc with revoked := true, drafts := [] })
  leaveScope m1 sid

/-- Modelled from the spec: ImmerScope.usePatches (scope.ts) — lazily
allocates the patches and inversePatches lists when a listener was given. -/
def usePatches (m : Machine) (sid : Nat) (listener : Bool) : Machine :=
  if listener then
    updScope m sid (fun sc =>
      { sc with patches := some [], inversePatches := some [], patchListener := true })
  else m

/-- Modelled from the spec: willFinalizeES5 (es5.ts).  The spec gives the
Draft Provider hook willFinalize(scope, result, isReplaced) no observable
behaviour beyond its contract, so it is modelled as the identity. -/
def willFinalizeES5 (m : Machine) (_sid : Nat) (_result : JSVal) (_isReplaced : Bool) : Machine :=
  m

/-- Immer.willFinalize (src/immer.ts lines 307-309): dispatches to the ES5
provider hook only when proxies are not in use. -/
def willFinalize (m : Machine) (sid : Nat) (result : JSVal) (isReplaced : Bool) : Machine :=
  if !m.useProxies then willFinalizeES5 m sid result isReplaced else m

/-- Immer.createProxy (src/immer.ts lines 284-305).  The per-kind providers
(createProxy in proxy.ts, createES5Proxy in es5.ts, proxyMap, proxySet) are
modelled from the spec as one allocator: a fresh draft object mirroring the
base, carrying a new Draft State with copy absent and modified false, pushed
onto the owning scope's draft list. -/
def createProxyM (m : Machine) (value : JSVal) (parent : Option DState) : JSVal × Machine :=
  match objOf m value with
  | none => (value, m)
  | some o =>
      match o.kind with
      | .otherK => (value, m)
      | _ =>
          let sidOpt := match parent with
            | some p => some p.scope
            | none => m.currentScope
          match sidOpt with
          | none => (value, m)
          | some sid =>
              let nid := m.nextId
              let st : DState :=
                { base := value, copy := JSVal.undef, scope := sid, modified := false,
                  finalized := false, draft := JSVal.ref nid, assigned := [] }
              let p := allocObj m { kind := o.kind, fields := o.fields, frozen := false,
                                    state := some st }
              let m2 := updScope p.2 sid (fun sc => { sc with drafts := sc.drafts ++ [JSVal.ref nid] })
              (JSVal.ref nid, m2)

/-- Modelled from the spec: the Draft Provider's write interception.  Per the
Draft State data model, copy is a "lazily created mutable shallow clone of
base; absent until the first write under this node" and "modified is set at
first write and never cleared"; the write is staged on the draft and on the
copy, and the key is recorded in assignedKeys. -/
def providerWrite (m : Machine) (id : Nat) (k v : JSVal) : Machine :=
  match stateOf m (JSVal.ref id) with
  | none => m
  | some st =>
      let m1 :=
        if st.modified then m
        else
          let q := shallowCopyOf m st.base
          setStateF (assignCopy q.2 id q.1) id (fun s => { s with modified := true })
      let m2 := updateObjM m1 id (fun o => { o with fields := fset o.fields k v })
      let m3 :=
        match (stateOf m2 (JSVal.ref id)).map (·.copy) with
        | some (JSVal.ref cid) => updateObjM m2 cid (fun o => { o with fields := fset o.fields k v })
        | _ => m2
      setStateF m3 id (fun s => { s with assigned := fsetB s.assigned k true })

/-- The epilogue of Immer.processResult (src/immer.ts lines 277-281): revoke
the scope, invoke the patch listener when patch lists were collected, and map
the NOTHING sentinel to undefined. -/
def processEpilogue (m : Machine) (r : JSVal) (sid : Nat) : Outcome JSVal :=
  let m1 := revokeScope m sid
  let res := if r = JSVal.nothing then JSVal.undef else r
  match scopePatches m1 sid with
  | some ps =>
      let ips := (scopeInv m1 sid).getD []
      .ok res { m1 with listenerCalls := m1.listenerCalls ++ [(ps, ips)] }
  | none => .ok res m1

/-- The root-level patch recording of Immer.processResult (src/immer.ts lines
261-272): when patch lists are allocated, push one replace patch at the empty
path carrying the (finalized) result and one inverse replace patch carrying
the original base of the root draft. -/
def pushRootPatches (m : Machine) (sid : Nat) (r baseDraft : JSVal) : Machine :=
  if scopePatchesPresent m sid then
    let b := ((stateOf m baseDraft).map (·.base)).getD JSVal.undef
    updScope m sid (fun sc =>
      { sc with patches := sc.patches.map (· ++ [{ op := POp.replace, path := [], value := r }]),
                inversePatches := sc.inversePatches.map (· ++ [{ op := POp.replace, path := [], value := b }]) })
  else m

/-- Immer.processResult (src/immer.ts lines 247-282). -/
def processResult (fuel : Nat) (m : Machine) (result : JSVal) (sid : Nat) : Outcome JSVal :=
  match scopeOf m sid with
  | none => .err .stuck m
  | some sc =>
      match sc.drafts.head? with
      | none => .err .stuck m
      | some baseDraft =>
          let isReplaced := decide (result ≠ JSVal.undef ∧ result ≠ baseDraft)
          let m0 := willFinalize m sid result isReplaced
          if isReplaced then
            match stateOf m0 baseDraft with
            | none => .err .stuck m0
            | some st =>
                if st.modified then
                  .err .recipeReturnedAndModified (revokeScope m0 sid)
                else
                  let step : Outcome JSVal :=
                    if isDraftableB m0 result then
                      match finalize fuel m0 result none sid with
                      | .err e m1 => .err e m1
                      | .ok r m1 => .ok r (maybeFreeze fuel m1 r false)
                    else .ok result m0
                  match step with
                  | .err e m1 => .err e m1
                  | .ok r m1 => processEpilogue (pushRootPatches m1 sid r baseDraft) r sid
          else
            match finalize fuel m0 baseDraft (some []) sid with
            | .err e m1 => .err e m1
            | .ok r m1 => processEpilogue m1 r sid

/-- The non-curried body of Immer.produce (src/immer.ts lines 123-158), after
argument validation.  A recipe is a Lean function receiving the draft and the
machine; asynchronous (Promise) results are outside the model. -/
def produceMain (fuel : Nat) (m : Machine) (base : JSVal)
    (recipe : JSVal → Machine → Outcome JSVal) (hasListener : Bool) : Outcome JSVal :=
  if isDraftableB m base then
    let p := enterScope m
    let sid := p.1
    let q := createProxyM p.2 base none
    match recipe q.1 q.2 with
    | .err e m3 => .err e (revokeScope m3 sid)
    | .ok result m3 =>
        let m4 := leaveScope m3 sid
        let m5 := usePatches m4 sid hasListener
        processResult fuel m5 result sid
  else
    match recipe base m with
    | .err e m1 => .err e m1
    | .ok r m1 =>
        if r = JSVal.nothing then .ok JSVal.undef m1
        else
          let r2 := if r = JSVal.undef then base else r
          .ok r2 (maybeFreeze fuel m1 r2 true)

/-- An argument to produce at the JavaScript level: either a value or a
(variadic) recipe function. -/
inductive PArg where
  | val (v : JSVal)
  | fn (f : JSVal → List JSVal → Machine → Outcome JSVal)

/-- The third argument to produce: absent, a valid listener function, or a
defined non-function value (which must be rejected). -/
inductive PListenerArg where
  | absent
  | given
  | invalid

/-- What a call to produce evaluates to: an outcome, or — for the curried
form — a reusable producer function. -/
inductive ProduceRet where
  | out (o : Outcome JSVal)
  | producer (g : JSVal → List JSVal → Machine → Outcome JSVal)

/-- Applies the producer returned by a curried produce call; on a non-curried
return it is stuck (calling a non-function). -/
def ProduceRet.callProducer : ProduceRet → JSVal → List JSVal → Machine → Outcome JSVal
  | .producer g, b, args, m => g b args m
  | .out _, _, _, m => .err .stuck m

/-- True on the curried form's return. -/
def ProduceRet.isProducer : ProduceRet → Bool
  | .producer _ => true
  | .out _ => false

/-- Whether an optional produce argument is a function. -/
def argIsFn : Option PArg → Bool
  | some (.fn _) => true
  | _ => false

/-- The default base captured by the curried form: the second argument when it
is a value, otherwise undefined. -/
def defaultBaseOf : Option PArg → JSVal
  | some (.val v) => v
  | _ => JSVal.undef

/-- The curriedProduce closure of Immer.produce (src/immer.ts lines 108-110):
missing or undefined base falls back to the captured default, the extra
arguments are bound into the recipe's invocation, and the call forwards to a
fresh produce with no patch listener. -/
def curriedProduce (fuel : Nat) (recipe : JSVal → List JSVal → Machine → Outcome JSVal)
    (defaultBase : JSVal) (base : JSVal) (args : List JSVal) (m : Machine) : Outcome JSVal :=
  let b := if base = JSVal.undef then defaultBase else base
  produceMain fuel m b (fun draft => recipe draft args) false

/-- Immer.produce (src/immer.ts lines 101-159): curried dispatch, argument
validation, then the main body.  When base and recipe are both functions the
main body would run the recipe against the base function value; function
values are not representable in this model, which is recorded as stuck. -/
def produceTop (fuel : Nat) (m : Machine) (base : PArg) (recipe : Option PArg)
    (pl : PListenerArg) : ProduceRet :=
  match base with
  | .fn f =>
      if argIsFn recipe then .out (.err .stuck m)
      else .producer (fun b args mc => curriedProduce fuel f (defaultBaseOf recipe) b args mc)
  | .val v =>
      match recipe with
      | some (.fn f) =>
          match pl with
          | .invalid => .out (.err .invalidListenerArg m)
          | .absent => .out (produceMain fuel m v (fun d => f d []) false)
          | .given => .out (produceMain fuel m v (fun d => f d []) true)
      | _ => .out (.err .invalidRecipeArg m)

/-- What a call to produceWithPatches evaluates to: an outcome carrying the
[nextState, patches, inversePatches] triple, or the curried form's function. -/
inductive PWPRet where
  | out (o : Outcome (JSVal × Option (List Patch) × Option (List Patch)))
  | producer (g : JSVal → List JSVal → Machine → Outcome (JSVal × Option (List Patch) × Option (List Patch)))

/-- True on the curried form's return. -/
def PWPRet.isProducer : PWPRet → Bool
  | .producer _ => true
  | .out _ => false

/-- The non-curried body of Immer.produceWithPatches (src/immer.ts lines
167-175): reject a third argument, then run produce with a collecting
listener; the closure variables patches/inversePatches are read off the last
listener invocation made during the call. -/
def produceWithPatchesMain (fuel : Nat) (m : Machine) (arg1 : JSVal) (arg2 : Option PArg)
    (arg3Truthy : Bool) : Outcome (JSVal × Option (List Patch) × Option (List Patch)) :=
  if arg3Truthy then .err .listenerToPWP m
  else
    let n := m.listenerCalls.length
    match produceTop fuel m (.val arg1) arg2 .given with
    | .producer _ => .err .stuck m
    | .out (.err e m1) => .err e m1
    | .out (.ok r m1) =>
        match (m1.listenerCalls.drop n).getLast? with
        | some c => .ok (r, some c.1, some c.2) m1
        | none => .ok (r, none, none) m1

/-- Immer.produceWithPatches (src/immer.ts lines 161-176): curried dispatch
first, then the non-curried body. -/
def produceWithPatches (fuel : Nat) (m : Machine) (arg1 : PArg) (arg2 : Option PArg)
    (arg3Truthy : Bool) : PWPRet :=
  match arg1 with
  | .fn f =>
      .producer (fun st args mc =>
        produceWithPatchesMain fuel mc st (some (.fn (fun d _ => f d args))) false)
  | .val v => .out (produceWithPatchesMain fuel m v arg2 arg3Truthy)

/-- Modelled from the spec: one patch op application inside the patches
module (patches.ts is not among the given sources) — descend along the path
and add/replace or remove the final key; unrepresentable paths are skipped. -/
def applyOnePatch (m : Machine) (target : JSVal) : List JSVal → Patch → Machine
  | [], _ => m
  | [k], p =>
      match target with
      | .ref id =>
          match p.op with
          | .remove => updateObjM m id (fun o => { o with fields := fdel o.fields k })
          | _ => updateObjM m id (fun o => { o with fields := fset o.fields k p.value })
      | _ => m
  | k :: rest, p => applyOnePatch m (getField m target k) rest p

/-- Modelled from the spec: applyPatches from the patches module — "replays
[the patch ops] to reconstruct state", applying each op in order against the
target. -/
def applyPatchesModule (m : Machine) (target : JSVal) (ps : List Patch) : Outcome JSVal :=
  .ok target (ps.foldl (fun (acc : Machine) p => applyOnePatch acc target p.path p) m)

/-- True of a root-level full replacement patch. -/
def isRootReplace (p : Patch) : Bool :=
  p.path.isEmpty && p.op == POp.replace

/-- The downward scan of Immer.applyPatches (src/immer.ts lines 227-234),
checking index i, then i-1, and so on. -/
def findLastRootRepAux (ps : List Patch) : Nat → Option Nat
  | 0 =>
      match ps[0]? with
      | some p => if isRootReplace p then some 0 else none
      | none => none
  | i+1 =>
      match ps[i+1]? with
      | some p => if isRootReplace p then some (i+1) else findLastRootRepAux ps i
      | none => findLastRootRepAux ps i

/-- The index at which the scan of Immer.applyPatches stops, if any. -/
def findLastRootRep (ps : List Patch) : Option Nat :=
  match ps with
  | [] => none
  | _ => findLastRootRepAux ps (ps.length - 1)

/-- Immer.applyPatches (src/immer.ts lines 224-244): take the value of the
last root-level replace as the new base; apply patches directly when that
base is a draft, otherwise run a fresh produce over the remaining slice. -/
def applyPatchesMethod (fuel : Nat) (m : Machine) (base : JSVal) (ps : List Patch) : Outcome JSVal :=
  let idx := findLastRootRep ps
  let base2 :=
    match idx with
    | some j => match ps[j]? with
                | some p => p.value
                | none => base
    | none => base
  if isDraftB m base2 then applyPatchesModule m base2 ps
  else
    produceMain fuel m base2
      (fun draft mc =>
        applyPatchesModule mc draft
          (ps.drop (match idx with
                    | some j => j + 1
                    | none => 0)))
      false

end ImmerModel

namespace ImmerModel

theorem alookup_aupdate {α : Type} (l : List (Nat × α)) (id : Nat) (f : α → α) (j : Nat) :
    alookup (aupdate l id f) j = if j = id then (alookup l id).map f else alookup l j := by
  induction l with
  | nil => by_cases h : j = id <;> simp [alookup, aupdate, h]
  | cons hd tl ih =>
    obtain ⟨k, v⟩ := hd
    simp only [aupdate, alookup]
    by_cases hk : k = id
    · subst hk
      simp only [if_pos rfl, alookup]
      by_cases hj : k = j
      · subst hj
        simp [alookup]
      · have hj2 : ¬ j = k := fun h => hj h.symm
        simp [alookup, hj, hj2]
    · simp only [if_neg hk, alookup]
      by_cases hj : k = j
      · subst hj
        simp [alookup, hk]
      · simp [alookup, hj, ih]

theorem scopeOf_updateObjM (m : Machine) (id : Nat) (f : Obj → Obj) (sid : Nat) :
    scopeOf (updateObjM m id f) sid = scopeOf m sid := rfl

theorem scopeOf_assignTail (m : Machine) (st0 : Option DState) (a b : Bool) (k v : JSVal)
    (sid : Nat) : scopeOf (assignTail m st0 a b k v) sid = scopeOf m sid := by
  unfold assignTail
  split <;> rfl

theorem heap_assignTail (m : Machine) (st0 : Option DState) (a b : Bool) (k v : JSVal) :
    (assignTail m st0 a b k v).heap = m.heap := by
  unfold assignTail
  split <;> rfl

theorem heap_updScope (m : Machine) (sid : Nat) (f : ScopeData → ScopeData) :
    (updScope m sid f).heap = m.heap := rfl

theorem stateOf_updateObjM_fieldsOnly (m : Machine) (id : Nat) (f : Obj → Obj)
    (hf : ∀ q, (f q).state = q.state) (w : JSVal) :
    stateOf (updateObjM m id f) w = stateOf m w := by
  cases w with
  | ref wid =>
      simp only [stateOf, objOf, updateObjM, alookup_aupdate]
      by_cases hw : wid = id
      · subst hw
        cases hq : alookup m.heap wid <;> simp [hq, hf]
      · simp [hw]
  | undef => rfl
  | nothing => rfl
  | num n => rfl
  | str s => rfl

theorem stateOf_replaceOp (m : Machine) (parentV prop value w : JSVal) :
    stateOf (replaceOp m parentV prop value) w = stateOf m w := by
  cases parentV with
  | ref pid =>
      cases halk : alookup m.heap pid with
      | none => simp [replaceOp, halk]
      | some o =>
          obtain ⟨ok, ofs, ofr, ost⟩ := o
          cases ok <;> simp only [replaceOp, halk] <;>
            (apply stateOf_updateObjM_fieldsOnly; intro q; rfl)
  | undef => simp [replaceOp]
  | nothing => simp [replaceOp]
  | num n => simp [replaceOp]
  | str s => simp [replaceOp]

end ImmerModel

namespace ImmerModel

/-- C1: For every draft node whose Draft State has modified = false, finalize
returns the state's base value itself (identity-equal to the corresponding
branch of the original, here literally the same value), marking the base
immutable-on-demand; this is the structural-sharing guarantee for untouched
branches. -/
theorem C1_unmodified_finalize_returns_base
    (fuel : Nat) (m : Machine) (sid : Nat) (st : DState) (draft : JSVal)
    (path : Option (List JSVal))
    (hst : stateOf m draft = some st)
    (hscope : st.scope = sid)
    (hmod : st.modified = false) :
    finalize (fuel + 1) m draft path sid = .ok st.base (maybeFreeze fuel m st.base true) := by
  simp [finalize, finStep, finBody, hst, hscope, hmod]

/-- Concrete machine used by several witnesses: object 0 is a root draft of
base object 1 inside scope 7; the draft is untouched (modified = false). -/
def wBaseState : DState :=
  { base := JSVal.ref 1, copy := JSVal.undef, scope := 7, modified := false,
    finalized := false, draft := JSVal.ref 0, assigned := [] }

/-- Heap objects of the witness machine. -/
def wMachine : Machine :=
  { heap := [(0, { kind := ObjKind.record, fields := [(JSVal.str "x", JSVal.num 1)],
                   frozen := false, state := some wBaseState }),
             (1, { kind := ObjKind.record, fields := [(JSVal.str "x", JSVal.num 1)],
                   frozen := false, state := none })],
    nextId := 2,
    scopes := [(7, { parent := none, drafts := [JSVal.ref 0], patches := none,
                     inversePatches := none, patchListener := false,
                     canAutoFreeze := true, revoked := false })],
    nextScope := 8, currentScope := some 7,
    useProxies := true, autoFreeze := false,
    onAssignHook := false, onDeleteHook := false, onCopyHook := false,
    hookLog := [], listenerCalls := [], copyLog := [] }

/-- Witness for C1 at a concrete machine: the hypotheses hold and finalize
hands back exactly the base reference. -/
theorem C1_unmodified_finalize_returns_base_witness :
    stateOf wMachine (JSVal.ref 0) = some wBaseState ∧
    wBaseState.scope = 7 ∧ wBaseState.modified = false ∧
    finalize 4 wMachine (JSVal.ref 0) none 7
      = .ok wBaseState.base (maybeFreeze 3 wMachine wBaseState.base true) :=
  ⟨by decide, by decide, by decide,
   C1_unmodified_finalize_returns_base 3 wMachine 7 wBaseState (JSVal.ref 0) none
     (by decide) (by decide) (by decide)⟩

end ImmerModel

namespace ImmerModel

theorem flookup_fset_self (l : List (JSVal × JSVal)) (k v : JSVal) :
    flookup (fset l k v) k = some v := by
  induction l with
  | nil => simp [fset, flookup]
  | cons hd tl ih =>
    obtain ⟨k2, w⟩ := hd
    by_cases h : k2 = k
    · subst h
      simp [fset, flookup]
    · simp [fset, flookup, h, ih]

theorem scopes_replaceOp (m : Machine) (p k v : JSVal) :
    (replaceOp m p k v).scopes = m.scopes := by
  cases p with
  | ref pid =>
      cases halk : alookup m.heap pid with
      | none => simp [replaceOp, halk]
      | some o =>
          obtain ⟨ok, ofs, ofr, ost⟩ := o
          cases ok <;> simp [replaceOp, halk, updateObjM]
  | undef => simp [replaceOp]
  | nothing => simp [replaceOp]
  | num n => simp [replaceOp]
  | str s => simp [replaceOp]

theorem scopeOf_updScope (m : Machine) (sid : Nat) (f : ScopeData → ScopeData) (j : Nat) :
    scopeOf (updScope m sid f) j = if j = sid then (scopeOf m sid).map f else scopeOf m j := by
  simp [scopeOf, updScope, alookup_aupdate]

theorem getField_heap_eq (m1 m2 : Machine) (h : m1.heap = m2.heap) (c k : JSVal) :
    getField m1 c k = getField m2 c k := by
  cases c <;> simp [getField, objOf, h]

theorem getField_replaceOp_record (m : Machine) (pid : Nat) (o : Obj) (prop v : JSVal)
    (hpo : alookup m.heap pid = some o) (hk : o.kind = ObjKind.record) :
    getField (replaceOp m (JSVal.ref pid) prop v) (JSVal.ref pid) prop = v := by
  obtain ⟨ok, ofs, ofr, ost⟩ := o
  simp only at hk
  subst hk
  simp [replaceOp, hpo, getField, objOf, updateObjM, alookup_aupdate, flookup_fset_self]

/-- C3: During the finalization tree walk, every visited (key, childValue)
pair with childValue identical to its own parent node makes the walk fail at
once with the circular-reference error, before any further work — cycles are
never silently resolved, and the error propagates out of the production. -/
theorem C3_circular_child_fails
    (fuel : Nat) (m : Machine) (st0 : Option DState) (rootV : JSVal) (np : Bool)
    (rp : Option (List JSVal)) (sid : Nat) (prop childValue parentV : JSVal)
    (hc : childValue = parentV) :
    finalizeProperty (fuel + 1) m st0 rootV np rp sid prop childValue parentV
      = .err .circularRef m := by
  subst hc
  simp [finalizeProperty, finStep, propBody]

/-- Witness for C3: a concrete visit whose child is its own parent fails with
the circular-reference error. -/
theorem C3_circular_child_fails_witness :
    (JSVal.ref 0 : JSVal) = JSVal.ref 0 ∧
    finalizeProperty 5 wMachine (some wBaseState) (JSVal.ref 0) false none 7
        (JSVal.str "x") (JSVal.ref 0) (JSVal.ref 0) = .err .circularRef wMachine :=
  ⟨rfl, C3_circular_child_fails 4 wMachine (some wBaseState) (JSVal.ref 0) false none 7
     (JSVal.str "x") (JSVal.ref 0) (JSVal.ref 0) rfl⟩

end ImmerModel

namespace ImmerModel

/-- C6: A draft whose Draft State belongs to a different scope is returned by
finalize unresolved — the very value, machine untouched, its state not
consumed — and when the tree walk writes such a still-unresolved draft back
into its (plain-record) parent, the finalizing scope's canAutoFreeze flag is
cleared. -/
theorem C6_cross_scope_draft_unresolved
    (fuel : Nat) (m : Machine) (sid : Nat) (st : DState) (vid pid : Nat)
    (st0 : Option DState) (rootV : JSVal) (np : Bool)
    (rp pathArg : Option (List JSVal)) (prop : JSVal) (sc : ScopeData) (po : Obj)
    (hst : stateOf m (JSVal.ref vid) = some st)
    (hss : st.scope ≠ sid)
    (hne : vid ≠ pid)
    (hsc : scopeOf m sid = some sc)
    (hpo : alookup m.heap pid = some po)
    (hpk : po.kind = ObjKind.record) :
    finalize (fuel + 1) m (JSVal.ref vid) pathArg sid = .ok (JSVal.ref vid) m ∧
    ∃ m2, finalizeProperty (fuel + 2) m st0 rootV np rp sid prop (JSVal.ref vid) (JSVal.ref pid)
            = .ok JSVal.undef m2 ∧
          (scopeOf m2 sid).map (·.canAutoFreeze) = some false ∧
          getField m2 (JSVal.ref pid) prop = JSVal.ref vid := by
  have hfin : ∀ p : Option (List JSVal),
      finBody (finStep fuel) fuel m (JSVal.ref vid) p sid = .ok (JSVal.ref vid) m := by
    intro p
    simp [finBody, hst, hss]
  refine ⟨by simp [finalize, finStep, hfin], ?_⟩
  have hrne : JSVal.ref vid ≠ JSVal.ref pid := by
    simp [hne]
  have hdraft : isDraftB m (JSVal.ref vid) = true := by
    simp [isDraftB, hst]
  have hdraft2 : isDraftB (replaceOp m (JSVal.ref pid) prop (JSVal.ref vid)) (JSVal.ref vid) = true := by
    simp [isDraftB, stateOf_replaceOp, hst]
  refine ⟨assignTail (updScope (replaceOp m (JSVal.ref pid) prop (JSVal.ref vid)) sid
            (fun s => { s with canAutoFreeze := false }))
          st0 (st0.isSome && (JSVal.ref pid == rootV)) (isSetB m (JSVal.ref pid)) prop
          (JSVal.ref vid), ?_, ?_, ?_⟩
  · simp only [finalizeProperty, finStep, propBody, if_neg hrne, hdraft, hfin, hdraft2, if_true]
  · rw [scopeOf_assignTail, scopeOf_updScope]
    rw [show scopeOf (replaceOp m (JSVal.ref pid) prop (JSVal.ref vid)) sid
          = scopeOf m sid from by simp [scopeOf, scopes_replaceOp]]
    simp [hsc]
  · rw [getField_heap_eq _ (updScope (replaceOp m (JSVal.ref pid) prop (JSVal.ref vid)) sid
        (fun s => { s with canAutoFreeze := false })) (heap_assignTail _ _ _ _ _ _)]
    rw [getField_heap_eq _ (replaceOp m (JSVal.ref pid) prop (JSVal.ref vid)) (heap_updScope _ _ _)]
    exact getField_replaceOp_record m pid po prop (JSVal.ref vid) hpo hpk

end ImmerModel

namespace ImmerModel

/-- A Draft State owned by scope 8, used to exercise cross-scope finalization
while scope 7 is being finalized. -/
def wCrossState : DState :=
  { base := JSVal.ref 3, copy := JSVal.undef, scope := 8, modified := false,
    finalized := false, draft := JSVal.ref 2, assigned := [] }

/-- Scope 7 of the cross-scope witness machine. -/
def wScope7 : ScopeData :=
  { parent := none, drafts := [], patches := none, inversePatches := none,
    patchListener := false, canAutoFreeze := true, revoked := false }

/-- Machine with a draft of scope 8 (object 2) sitting inside a plain record
parent (object 4), while scope 7 is the one being finalized. -/
def wMachine6 : Machine :=
  { heap := [(2, { kind := ObjKind.record, fields := [], frozen := false,
                   state := some wCrossState }),
             (3, { kind := ObjKind.record, fields := [], frozen := false, state := none }),
             (4, { kind := ObjKind.record, fields := [(JSVal.str "c", JSVal.ref 2)],
                   frozen := false, state := none })],
    nextId := 5,
    scopes := [(7, wScope7),
               (8, { parent := some 7, drafts := [JSVal.ref 2], patches := none,
                     inversePatches := none, patchListener := false,
                     canAutoFreeze := true, revoked := false })],
    nextScope := 9, currentScope := some 7,
    useProxies := true, autoFreeze := false,
    onAssignHook := false, onDeleteHook := false, onCopyHook := false,
    hookLog := [], listenerCalls := [], copyLog := [] }

/-- Witness for C6: at the concrete machine, the cross-scope draft is handed
back untouched and its write-back clears canAutoFreeze of the finalizing
scope. -/
theorem C6_cross_scope_draft_unresolved_witness :
    stateOf wMachine6 (JSVal.ref 2) = some wCrossState ∧
    wCrossState.scope ≠ 7 ∧
    finalize 4 wMachine6 (JSVal.ref 2) none 7 = .ok (JSVal.ref 2) wMachine6 ∧
    (∃ m2, finalizeProperty 5 wMachine6 none (JSVal.ref 4) false none 7
             (JSVal.str "c") (JSVal.ref 2) (JSVal.ref 4) = .ok JSVal.undef m2 ∧
           (scopeOf m2 7).map (·.canAutoFreeze) = some false ∧
           getField m2 (JSVal.ref 4) (JSVal.str "c") = JSVal.ref 2) := by
  have h := C6_cross_scope_draft_unresolved 3 wMachine6 7 wCrossState 2 4 none (JSVal.ref 4)
    false none none (JSVal.str "c") wScope7
    { kind := ObjKind.record, fields := [(JSVal.str "c", JSVal.ref 2)],
      frozen := false, state := none }
    (by decide) (by decide) (by decide) (by decide) (by decide) (by decide)
  exact ⟨by decide, by decide, h.1, h.2⟩

end ImmerModel

namespace ImmerModel

theorem scopes_leaveScope (m : Machine) (sid : Nat) :
    (leaveScope m sid).scopes = m.scopes := by
  unfold leaveScope
  split <;> rfl

theorem scopeOf_leaveScope (m : Machine) (sid j : Nat) :
    scopeOf (leaveScope m sid) j = scopeOf m j := by
  simp [scopeOf, scopes_leaveScope]

theorem scopeOf_revokeScope (m : Machine) (sid j : Nat) :
    scopeOf (revokeScope m sid) j
      = if j = sid then (scopeOf m sid).map (fun sc => { sc with revoked := true, drafts := [] })
        else scopeOf m j := by
  simp [revokeScope, scopeOf_leaveScope, scopeOf_updScope]

/-- C2: When the recipe's result is defined and not identical to the root
draft (replaced) while the root draft's state has modified = true, processing
the result fails with the returned-and-modified error and the scope is
revoked, so no partial result is observable. -/
theorem C2_replaced_and_modified_fails
    (fuel : Nat) (m : Machine) (sid : Nat) (sc : ScopeData) (baseDraft result : JSVal)
    (st : DState)
    (hsc : scopeOf m sid = some sc)
    (hd : sc.drafts.head? = some baseDraft)
    (hru : result ≠ JSVal.undef)
    (hrb : result ≠ baseDraft)
    (hst : stateOf m baseDraft = some st)
    (hmod : st.modified = true) :
    processResult fuel m result sid = .err .recipeReturnedAndModified (revokeScope m sid) ∧
    scopeRevoked (revokeScope m sid) sid = true := by
  constructor
  · simp [processResult, hsc, hd, hru, hrb, willFinalize, willFinalizeES5, hst, hmod]
  · simp [scopeRevoked, scopeOf_revokeScope, hsc]

/-- Machine for the C2 witness: the root draft (object 0) has been modified
in place, and the recipe result is a different object (object 1). -/
def wMachine2 : Machine :=
  { heap := [(0, { kind := ObjKind.record, fields := [(JSVal.str "x", JSVal.num 2)],
                   frozen := false,
                   state := some { base := JSVal.ref 1, copy := JSVal.undef, scope := 7,
                                   modified := true, finalized := false,
                                   draft := JSVal.ref 0, assigned := [(JSVal.str "x", true)] } }),
             (1, { kind := ObjKind.record, fields := [(JSVal.str "x", JSVal.num 1)],
                   frozen := false, state := none })],
    nextId := 2,
    scopes := [(7, { parent := none, drafts := [JSVal.ref 0], patches := none,
                     inversePatches := none, patchListener := false,
                     canAutoFreeze := true, revoked := false })],
    nextScope := 8, currentScope := some 7,
    useProxies := true, autoFreeze := false,
    onAssignHook := false, onDeleteHook := false, onCopyHook := false,
    hookLog := [], listenerCalls := [], copyLog := [] }

/-- Witness for C2: a concrete replaced-and-modified production fails with
the dedicated error and leaves the scope revoked. -/
theorem C2_replaced_and_modified_fails_witness :
    (JSVal.num 99 : JSVal) ≠ JSVal.undef ∧
    (JSVal.num 99 : JSVal) ≠ JSVal.ref 0 ∧
    processResult 4 wMachine2 (JSVal.num 99) 7
      = .err .recipeReturnedAndModified (revokeScope wMachine2 7) ∧
    scopeRevoked (revokeScope wMachine2 7) 7 = true := by
  have h := C2_replaced_and_modified_fails 4 wMachine2 7
    { parent := none, drafts := [JSVal.ref 0], patches := none,
      inversePatches := none, patchListener := false,
      canAutoFreeze := true, revoked := false }
    (JSVal.ref 0) (JSVal.num 99)
    { base := JSVal.ref 1, copy := JSVal.undef, scope := 7, modified := true,
      finalized := false, draft := JSVal.ref 0, assigned := [(JSVal.str "x", true)] }
    (by decide) (by decide) (by decide) (by decide) (by decide) (by decide)
  exact ⟨by decide, by decide, h.1, h.2⟩

end ImmerModel

namespace ImmerModel

theorem scopeOf_setListenerCalls (m : Machine) (l : List (List Patch × List Patch)) (sid : Nat) :
    scopeOf { m with listenerCalls := l } sid = scopeOf m sid := rfl

/-- C5: For a replaced, draftable recipe result, processResult finalizes the
result (hfin names that call), conditionally freezes it, and — when patch
lists are collected — appends exactly one root-level replace patch carrying
the finalized result and exactly one inverse replace patch carrying the
original base of the root draft, then hands both lists to the listener. -/
theorem C5_replaced_draftable_records_root_patch
    (fuel : Nat) (m : Machine) (sid : Nat) (sc sc2 : ScopeData) (baseDraft result : JSVal)
    (st st2 : DState) (r1 : JSVal) (m1 : Machine) (ps ips : List Patch)
    (hsc : scopeOf m sid = some sc)
    (hd : sc.drafts.head? = some baseDraft)
    (hru : result ≠ JSVal.undef)
    (hrb : result ≠ baseDraft)
    (hst : stateOf m baseDraft = some st)
    (hmod : st.modified = false)
    (hdr : isDraftableB m result = true)
    (hfin : finalize fuel m result none sid = .ok r1 m1)
    (hsc2 : scopeOf (maybeFreeze fuel m1 r1 false) sid = some sc2)
    (hps : sc2.patches = some ps)
    (hips : sc2.inversePatches = some ips)
    (hstb : stateOf (maybeFreeze fuel m1 r1 false) baseDraft = some st2) :
    ∃ m4, processResult fuel m result sid
            = .ok (if r1 = JSVal.nothing then JSVal.undef else r1) m4 ∧
          scopePatches m4 sid = some (ps ++ [{ op := POp.replace, path := [], value := r1 }]) ∧
          scopeInv m4 sid = some (ips ++ [{ op := POp.replace, path := [], value := st2.base }]) ∧
          scopeRevoked m4 sid = true ∧
          (∃ pre, m4.listenerCalls
              = pre ++ [(ps ++ [{ op := POp.replace, path := [], value := r1 }],
                         ips ++ [{ op := POp.replace, path := [], value := st2.base }])]) := by
  have hwb : ∀ b : Bool, willFinalize m sid result b = m := by
    intro b
    simp [willFinalize, willFinalizeES5]
  have hrep : decide (result ≠ JSVal.undef ∧ result ≠ baseDraft) = true := by
    simp [hru, hrb]
  set p1 : Patch := { op := POp.replace, path := [], value := r1 } with hp1
  set ip1 : Patch := { op := POp.replace, path := [], value := st2.base } with hip1
  set m2 := maybeFreeze fuel m1 r1 false with hm2
  set mP := updScope m2 sid (fun s =>
    { s with patches := s.patches.map (· ++ [p1]),
             inversePatches := s.inversePatches.map (· ++ [ip1]) }) with hmP
  set m3 := revokeScope mP sid with hm3
  have hscP : scopeOf mP sid
      = some { sc2 with patches := some (ps ++ [p1]), inversePatches := some (ips ++ [ip1]) } := by
    simp [hmP, scopeOf_updScope, hsc2, hps, hips]
  have hsc3 : scopeOf m3 sid
      = some { sc2 with patches := some (ps ++ [p1]), inversePatches := some (ips ++ [ip1]),
                        revoked := true, drafts := [] } := by
    simp [hm3, scopeOf_revokeScope, hscP]
  have hpush : pushRootPatches m2 sid r1 baseDraft = mP := by
    simp [pushRootPatches, scopePatchesPresent, hsc2, hps, hstb, hmP, hp1, hip1]
  refine ⟨{ m3 with listenerCalls := m3.listenerCalls ++ [(ps ++ [p1], ips ++ [ip1])] },
          ?_, ?_, ?_, ?_, ⟨m3.listenerCalls, rfl⟩⟩
  · simp only [processResult, hsc, hd, hrep, hwb, hst, hmod, hdr, hfin, if_true,
               Bool.false_eq_true, if_false]
    simp only [← hm2, hpush]
    simp [processEpilogue, scopePatches, scopeInv, hsc3]
  · simp [scopePatches, scopeOf_setListenerCalls, hsc3]
  · simp [scopeInv, scopeOf_setListenerCalls, hsc3]
  · simp [scopeRevoked, scopeOf_setListenerCalls, hsc3]

end ImmerModel

namespace ImmerModel

/-- Root Draft State for the C5 witness (untouched root draft of object 1). -/
def wState5 : DState :=
  { base := JSVal.ref 1, copy := JSVal.undef, scope := 7, modified := false,
    finalized := false, draft := JSVal.ref 0, assigned := [] }

/-- Scope for the C5 witness, with empty patch lists already allocated. -/
def wScope5 : ScopeData :=
  { parent := none, drafts := [JSVal.ref 0], patches := some [], inversePatches := some [],
    patchListener := true, canAutoFreeze := true, revoked := false }

/-- Machine for the C5 witness: object 0 is the untouched root draft, object 2
is a fresh draftable record the recipe returned. -/
def wMachine5 : Machine :=
  { heap := [(0, { kind := ObjKind.record, fields := [], frozen := false,
                   state := some wState5 }),
             (1, { kind := ObjKind.record, fields := [], frozen := false, state := none }),
             (2, { kind := ObjKind.record, fields := [], frozen := false, state := none })],
    nextId := 3,
    scopes := [(7, wScope5)],
    nextScope := 8, currentScope := some 7,
    useProxies := true, autoFreeze := false,
    onAssignHook := false, onDeleteHook := false, onCopyHook := false,
    hookLog := [], listenerCalls := [], copyLog := [] }

/-- Witness for C5: a concrete replaced draftable result is finalized and one
root replace patch plus one inverse replace patch (carrying the original
base) are recorded and handed to the listener. -/
theorem C5_replaced_draftable_records_root_patch_witness :
    scopeOf wMachine5 7 = some wScope5 ∧
    isDraftableB wMachine5 (JSVal.ref 2) = true ∧
    finalize 3 wMachine5 (JSVal.ref 2) none 7 = .ok (JSVal.ref 2) wMachine5 ∧
    (∃ m4, processResult 3 wMachine5 (JSVal.ref 2) 7
             = .ok (if (JSVal.ref 2 : JSVal) = JSVal.nothing then JSVal.undef else JSVal.ref 2) m4 ∧
           scopePatches m4 7
             = some (([] : List Patch) ++ [{ op := POp.replace, path := [], value := JSVal.ref 2 }]) ∧
           scopeInv m4 7
             = some (([] : List Patch) ++ [{ op := POp.replace, path := [], value := wState5.base }]) ∧
           scopeRevoked m4 7 = true ∧
           (∃ pre, m4.listenerCalls
               = pre ++ [(([] : List Patch) ++ [{ op := POp.replace, path := [], value := JSVal.ref 2 }],
                          ([] : List Patch) ++ [{ op := POp.replace, path := [], value := wState5.base }])])) := by
  refine ⟨by decide, by decide, by decide, ?_⟩
  exact C5_replaced_draftable_records_root_patch 3 wMachine5 7 wScope5 wScope5
    (JSVal.ref 0) (JSVal.ref 2) wState5 wState5 (JSVal.ref 2) wMachine5 [] []
    (by decide) (by decide) (by decide) (by decide) (by decide) (by decide)
    (by decide) (by decide) (by decide) (by decide) (by decide) (by decide)

end ImmerModel

namespace ImmerModel

/-- Relation between a machine and the result of freezing some of its
objects: everything except the heap frozen flags is preserved, and in
particular every Draft State stays as it was. -/
def frozenOnly (m m2 : Machine) : Prop :=
  m2.nextId = m.nextId ∧ m2.scopes = m.scopes ∧ m2.nextScope = m.nextScope ∧
  m2.currentScope = m.currentScope ∧ m2.useProxies = m.useProxies ∧
  m2.autoFreeze = m.autoFreeze ∧ m2.onAssignHook = m.onAssignHook ∧
  m2.onDeleteHook = m.onDeleteHook ∧ m2.onCopyHook = m.onCopyHook ∧
  m2.hookLog = m.hookLog ∧ m2.listenerCalls = m.listenerCalls ∧ m2.copyLog = m.copyLog ∧
  ∀ w, stateOf m2 w = stateOf m w

theorem frozenOnly_refl (m : Machine) : frozenOnly m m := by
  simp [frozenOnly]

theorem frozenOnly_trans {a b c : Machine} (h1 : frozenOnly a b) (h2 : frozenOnly b c) :
    frozenOnly a c := by
  obtain ⟨x1, x2, x3, x4, x5, x6, x7, x8, x9, x10, x11, x12, x13⟩ := h1
  obtain ⟨y1, y2, y3, y4, y5, y6, y7, y8, y9, y10, y11, y12, y13⟩ := h2
  refine ⟨y1.trans x1, y2.trans x2, y3.trans x3, y4.trans x4, y5.trans x5, y6.trans x6,
          y7.trans x7, y8.trans x8, y9.trans x9, y10.trans x10, y11.trans x11,
          y12.trans x12, fun w => (y13 w).trans (x13 w)⟩

theorem frozenOnly_freezeFlag (m : Machine) (id : Nat) :
    frozenOnly m (updateObjM m id (fun q => { q with frozen := true })) := by
  refine ⟨rfl, rfl, rfl, rfl, rfl, rfl, rfl, rfl, rfl, rfl, rfl, rfl, fun w => ?_⟩
  apply stateOf_updateObjM_fieldsOnly
  intro q
  rfl

theorem freezeRec_frozenOnly :
    ∀ (fuel : Nat) (m : Machine) (v : JSVal) (d : Bool), frozenOnly m (freezeRec fuel m v d) := by
  intro fuel
  induction fuel with
  | zero => intro m v d; exact frozenOnly_refl m
  | succ n ih =>
    intro m v d
    have hfold : ∀ (l : List (JSVal × JSVal)) (acc : Machine), frozenOnly m acc →
        frozenOnly m (l.foldl (fun a kv => freezeRec n a kv.2 true) acc) := by
      intro l
      induction l with
      | nil => intro acc h; exact h
      | cons hd tl ihl =>
        intro acc h
        exact ihl _ (frozenOnly_trans h (ih acc hd.2 true))
    cases v with
    | ref id =>
      simp only [freezeRec]
      cases halk : alookup m.heap id with
      | none => exact frozenOnly_refl m
      | some o =>
        by_cases hg : (o.kind == ObjKind.otherK || o.state.isSome || o.frozen) = true
        · simp [hg]
          exact frozenOnly_refl m
        · simp only [hg, if_false, Bool.false_eq_true]
          cases d with
          | false => simp; exact frozenOnly_freezeFlag m id
          | true => simp; exact hfold o.fields _ (frozenOnly_freezeFlag m id)
    | undef => exact frozenOnly_refl m
    | nothing => exact frozenOnly_refl m
    | num n2 => exact frozenOnly_refl m
    | str s => exact frozenOnly_refl m

theorem maybeFreeze_frozenOnly (fuel : Nat) (m : Machine) (v : JSVal) (d : Bool) :
    frozenOnly m (maybeFreeze fuel m v d) := by
  unfold maybeFreeze
  split
  · exact freezeRec_frozenOnly fuel m v d
  · exact frozenOnly_refl m

end ImmerModel

namespace ImmerModel

/-- C7: When the base is not a draftable composite, the recipe runs directly
on the unmodified base with no draft machinery: recipe errors propagate, the
NOTHING sentinel yields undefined, undefined yields the base, and any other
return value is conditionally frozen and returned; freezing touches neither
the scope table nor the current scope nor any Draft State, so no scope is
opened and no draft is created by produce itself. -/
theorem C7_nondraftable_recipe_runs_directly
    (fuel : Nat) (m : Machine) (base : JSVal)
    (recipe : JSVal → Machine → Outcome JSVal) (pl : Bool)
    (hnd : isDraftableB m base = false) :
    (∀ e m1, recipe base m = .err e m1 → produceMain fuel m base recipe pl = .err e m1) ∧
    (∀ m1, recipe base m = .ok JSVal.nothing m1 →
        produceMain fuel m base recipe pl = .ok JSVal.undef m1) ∧
    (∀ m1, recipe base m = .ok JSVal.undef m1 →
        produceMain fuel m base recipe pl = .ok base (maybeFreeze fuel m1 base true)) ∧
    (∀ r m1, recipe base m = .ok r m1 → r ≠ JSVal.nothing → r ≠ JSVal.undef →
        produceMain fuel m base recipe pl = .ok r (maybeFreeze fuel m1 r true)) ∧
    (∀ m1 r, (maybeFreeze fuel m1 r true).scopes = m1.scopes ∧
        (maybeFreeze fuel m1 r true).currentScope = m1.currentScope ∧
        ∀ w, stateOf (maybeFreeze fuel m1 r true) w = stateOf m1 w) := by
  refine ⟨?_, ?_, ?_, ?_, ?_⟩
  · intro e m1 hr
    simp [produceMain, hnd, hr]
  · intro m1 hr
    simp [produceMain, hnd, hr]
  · intro m1 hr
    simp [produceMain, hnd, hr]
  · intro r m1 hr hn hu
    simp [produceMain, hnd, hr, hn, hu]
  · intro m1 r
    have h := maybeFreeze_frozenOnly fuel m1 r true
    exact ⟨h.2.1, h.2.2.2.1, h.2.2.2.2.2.2.2.2.2.2.2.2⟩

/-- Witness for C7: a recipe on a primitive base returns a fresh value, which
produce hands back (conditionally frozen) with no scope opened. -/
theorem C7_nondraftable_recipe_runs_directly_witness :
    isDraftableB wMachine (JSVal.num 5) = false ∧
    produceMain 3 wMachine (JSVal.num 5) (fun _ mm => .ok (JSVal.num 7) mm) false
      = .ok (JSVal.num 7) (maybeFreeze 3 wMachine (JSVal.num 7) true) :=
  ⟨by decide,
   ((C7_nondraftable_recipe_runs_directly 3 wMachine (JSVal.num 5)
       (fun _ mm => .ok (JSVal.num 7) mm) false (by decide)).2.2.2.1
     (JSVal.num 7) wMachine rfl (by decide) (by decide))⟩

/-- C9: Called with a function as first argument (and no function as second),
produce returns a reusable producer; applying it to (base, extra args, any
machine) forwards to a fresh produce run on base — defaulting to the captured
default base when base is undefined — with the extra arguments bound into the
recipe's invocation and no patch listener. -/
theorem C9_curried_produce_forwards
    (fuel : Nat) (m : Machine) (f : JSVal → List JSVal → Machine → Outcome JSVal)
    (recipe : Option PArg) (pl : PListenerArg)
    (hr : argIsFn recipe = false) :
    (produceTop fuel m (.fn f) recipe pl).isProducer = true ∧
    ∀ (b : JSVal) (args : List JSVal) (mc : Machine),
      (produceTop fuel m (.fn f) recipe pl).callProducer b args mc
        = produceMain fuel mc (if b = JSVal.undef then defaultBaseOf recipe else b)
            (fun draft => f draft args) false := by
  constructor
  · simp [produceTop, hr, ProduceRet.isProducer]
  · intro b args mc
    simp [produceTop, hr, ProduceRet.callProducer, curriedProduce]

/-- Witness for C9: a concrete curried producer call with undefined base uses
the captured default and binds the extra arguments. -/
theorem C9_curried_produce_forwards_witness :
    argIsFn (some (PArg.val (JSVal.num 3))) = false ∧
    (produceTop 3 wMachine (.fn (fun d _ mm => .ok d mm)) (some (PArg.val (JSVal.num 3)))
        .absent).isProducer = true ∧
    (produceTop 3 wMachine (.fn (fun d _ mm => .ok d mm)) (some (PArg.val (JSVal.num 3)))
        .absent).callProducer JSVal.undef [JSVal.num 1] wMachine
      = produceMain 3 wMachine
          (if (JSVal.undef : JSVal) = JSVal.undef then defaultBaseOf (some (PArg.val (JSVal.num 3)))
           else JSVal.undef)
          (fun draft => (fun d (_ : List JSVal) mm => Outcome.ok d mm) draft [JSVal.num 1]) false := by
  have h := C9_curried_produce_forwards 3 wMachine (fun d _ mm => .ok d mm)
    (some (PArg.val (JSVal.num 3))) .absent rfl
  exact ⟨rfl, h.1, h.2 JSVal.undef [JSVal.num 1] wMachine⟩

end ImmerModel

namespace ImmerModel

/-- C10: A non-curried produceWithPatches call with a truthy third argument
throws before invoking produce (machine unchanged); with no third argument it
returns the [nextState, patches, inversePatches] triple collected from the
internal produce call's listener invocation, and produce errors propagate. -/
theorem C10_produceWithPatches_dispatch
    (fuel : Nat) (m : Machine) (v : JSVal) (arg2 : Option PArg) :
    produceWithPatches fuel m (.val v) arg2 true = .out (.err .listenerToPWP m) ∧
    (∀ (r : JSVal) (m1 : Machine) (p ip : List Patch),
       produceTop fuel m (.val v) arg2 .given = .out (.ok r m1) →
       m1.listenerCalls = m.listenerCalls ++ [(p, ip)] →
       produceWithPatches fuel m (.val v) arg2 false = .out (.ok (r, some p, some ip) m1)) ∧
    (∀ (e : Err) (m1 : Machine),
       produceTop fuel m (.val v) arg2 .given = .out (.err e m1) →
       produceWithPatches fuel m (.val v) arg2 false = .out (.err e m1)) := by
  refine ⟨?_, ?_, ?_⟩
  · simp [produceWithPatches, produceWithPatchesMain]
  · intro r m1 p ip hcall hl
    simp [produceWithPatches, produceWithPatchesMain, hcall, hl, List.drop_left]
  · intro e m1 hcall
    simp [produceWithPatches, produceWithPatchesMain, hcall]

/-- Base machine for the C10 witness: a single draftable record, no open
scope yet. -/
def mW10 : Machine :=
  { heap := [(0, { kind := ObjKind.record, fields := [], frozen := false, state := none })],
    nextId := 1, scopes := [], nextScope := 0, currentScope := none,
    useProxies := true, autoFreeze := false,
    onAssignHook := false, onDeleteHook := false, onCopyHook := false,
    hookLog := [], listenerCalls := [], copyLog := [] }

/-- The machine after the C10 witness production: the root draft (object 1)
was created, the scope was used with patch lists and revoked, and the
listener was called once with the empty patch lists. -/
def mW10out : Machine :=
  { heap := [(0, { kind := ObjKind.record, fields := [], frozen := false, state := none }),
             (1, { kind := ObjKind.record, fields := [], frozen := false,
                   state := some { base := JSVal.ref 0, copy := JSVal.undef, scope := 0,
                                   modified := false, finalized := false,
                                   draft := JSVal.ref 1, assigned := [] } })],
    nextId := 2,
    scopes := [(0, { parent := none, drafts := [], patches := some [],
                     inversePatches := some [], patchListener := true,
                     canAutoFreeze := true, revoked := true })],
    nextScope := 1, currentScope := none,
    useProxies := true, autoFreeze := false,
    onAssignHook := false, onDeleteHook := false, onCopyHook := false,
    hookLog := [], listenerCalls := [([], [])], copyLog := [] }

/-- Witness for C10: with a truthy third argument the call throws without
touching the machine, and without one a concrete production yields the triple
collected from the one listener call. -/
theorem C10_produceWithPatches_dispatch_witness :
    produceWithPatches 5 mW10 (.val (JSVal.ref 0))
        (some (.fn (fun _ _ mm => .ok JSVal.undef mm))) true
      = .out (.err .listenerToPWP mW10) ∧
    produceTop 5 mW10 (.val (JSVal.ref 0))
        (some (.fn (fun _ _ mm => .ok JSVal.undef mm))) .given
      = .out (.ok (JSVal.ref 0) mW10out) ∧
    mW10out.listenerCalls = mW10.listenerCalls ++ [([], [])] ∧
    produceWithPatches 5 mW10 (.val (JSVal.ref 0))
        (some (.fn (fun _ _ mm => .ok JSVal.undef mm))) false
      = .out (.ok (JSVal.ref 0, some [], some []) mW10out) := by
  have h := C10_produceWithPatches_dispatch 5 mW10 (JSVal.ref 0)
    (some (.fn (fun _ _ mm => .ok JSVal.undef mm)))
  have hcall : produceTop 5 mW10 (.val (JSVal.ref 0))
      (some (.fn (fun _ _ mm => .ok JSVal.undef mm))) .given
      = .out (.ok (JSVal.ref 0) mW10out) := by
    rfl
  exact ⟨h.1, hcall, by decide, h.2.1 (JSVal.ref 0) mW10out [] [] hcall (by decide)⟩

end ImmerModel

namespace ImmerModel

/-- The j-th patch is a root-level replace and no later patch is one: the
spot where the scan of Immer.applyPatches must stop. -/
def lastRootReplaceAt (ps : List Patch) (j : Nat) (p : Patch) : Prop :=
  ps[j]? = some p ∧ isRootReplace p = true ∧
  (ps.drop (j + 1)).all (fun q => !isRootReplace q) = true

instance (ps : List Patch) (j : Nat) (p : Patch) : Decidable (lastRootReplaceAt ps j p) := by
  unfold lastRootReplaceAt
  infer_instance

theorem lastRootReplaceAt_after {ps : List Patch} {j : Nat} {p : Patch}
    (h : lastRootReplaceAt ps j p) {k : Nat} {q : Patch}
    (hlt : j < k) (hq : ps[k]? = some q) : isRootReplace q = false := by
  obtain ⟨-, -, hall⟩ := h
  have hk : k = j + 1 + (k - (j + 1)) := by omega
  have hdrop : (ps.drop (j + 1))[k - (j + 1)]? = some q := by
    rw [List.getElem?_drop]
    rw [← hk]
    exact hq
  have hmem : q ∈ ps.drop (j + 1) := List.getElem?_mem hdrop
  have := List.all_eq_true.mp hall q hmem
  simpa using this

theorem findAux_eq_some (ps : List Patch) (j : Nat) (p : Patch)
    (h : lastRootReplaceAt ps j p) :
    ∀ i, j ≤ i → findLastRootRepAux ps i = some j := by
  intro i
  induction i with
  | zero =>
    intro h0
    have hj0 : j = 0 := Nat.le_zero.mp h0
    subst hj0
    simp [findLastRootRepAux, h.1, h.2.1]
  | succ n ihn =>
    intro hle
    by_cases hij : j = n + 1
    · subst hij
      simp [findLastRootRepAux, h.1, h.2.1]
    · have hlt : j < n + 1 := lt_of_le_of_ne hle hij
      have hle2 : j ≤ n := Nat.lt_succ_iff.mp hlt
      cases hq : ps[n + 1]? with
      | none => simp [findLastRootRepAux, hq, ihn hle2]
      | some q =>
        have hf : isRootReplace q = false := lastRootReplaceAt_after h hlt hq
        simp [findLastRootRepAux, hq, hf, ihn hle2]

theorem findLastRootRep_eq_some (ps : List Patch) (j : Nat) (p : Patch)
    (h : lastRootReplaceAt ps j p) : findLastRootRep ps = some j := by
  have hlen : j < ps.length := by
    by_contra hge
    have hnone : ps[j]? = none := List.getElem?_eq_none (by omega)
    have h1 := h.1
    rw [hnone] at h1
    exact absurd h1 (by simp)
  cases hp : ps with
  | nil => subst hp; simp at hlen
  | cons a l =>
    subst hp
    simp only [findLastRootRep, List.length_cons, Nat.add_sub_cancel]
    apply findAux_eq_some _ _ _ h
    have hlen2 : j < l.length + 1 := by simpa using hlen
    omega

theorem findAux_eq_none (ps : List Patch)
    (hall : ps.all (fun q => !isRootReplace q) = true) :
    ∀ i, findLastRootRepAux ps i = none := by
  have hnone : ∀ (k : Nat) (q : Patch), ps[k]? = some q → isRootReplace q = false := by
    intro k q hq
    have := List.all_eq_true.mp hall q (List.getElem?_mem hq)
    simpa using this
  intro i
  induction i with
  | zero =>
    cases hq : ps[0]? with
    | none => simp [findLastRootRepAux, hq]
    | some q => simp [findLastRootRepAux, hq, hnone 0 q hq]
  | succ n ihn =>
    cases hq : ps[n + 1]? with
    | none => simp [findLastRootRepAux, hq, ihn]
    | some q => simp [findLastRootRepAux, hq, hnone (n + 1) q hq, ihn]

theorem findLastRootRep_eq_none (ps : List Patch)
    (hall : ps.all (fun q => !isRootReplace q) = true) :
    findLastRootRep ps = none := by
  cases ps with
  | nil => rfl
  | cons a l => simpa [findLastRootRep] using findAux_eq_none _ hall _

/-- C4: applyPatches scans the patches from the end; when the last root-level
full replace sits at index j, its value becomes the new base and only the
patches strictly after j are applied, through a fresh produce call when that
value is not a draft; when there is no root-level replace, all patches are
applied — directly when the base is a draft, through a fresh produce call
otherwise. -/
theorem C4_applyPatches_dispatch
    (fuel : Nat) (m : Machine) (base : JSVal) (ps : List Patch) :
    (∀ j p, lastRootReplaceAt ps j p → isDraftB m p.value = false →
       applyPatchesMethod fuel m base ps
         = produceMain fuel m p.value
             (fun draft mc => applyPatchesModule mc draft (ps.drop (j + 1))) false) ∧
    (ps.all (fun q => !isRootReplace q) = true →
       (isDraftB m base = true →
          applyPatchesMethod fuel m base ps = applyPatchesModule m base ps) ∧
       (isDraftB m base = false →
          applyPatchesMethod fuel m base ps
            = produceMain fuel m base
                (fun draft mc => applyPatchesModule mc draft ps) false)) := by
  constructor
  · intro j p h hnd
    have hidx : findLastRootRep ps = some j := findLastRootRep_eq_some ps j p h
    simp [applyPatchesMethod, hidx, h.1, hnd]
  · intro hall
    have hidx : findLastRootRep ps = none := findLastRootRep_eq_none ps hall
    constructor
    · intro hdr
      simp [applyPatchesMethod, hidx, hdr]
    · intro hdr
      simp [applyPatchesMethod, hidx, hdr]

/-- Patches of the C4 witness: the root replace at index 1 supersedes the
patch before it; exactly the one patch after it is applied. -/
def wPatches4 : List Patch :=
  [{ op := POp.add, path := [JSVal.str "a"], value := JSVal.num 1 },
   { op := POp.replace, path := [], value := JSVal.num 5 },
   { op := POp.add, path := [JSVal.str "b"], value := JSVal.num 2 }]

/-- Witness for C4: at the concrete patch list, the scan stops at index 1 and
the call routes through produce on the replacement value with the single
remaining patch. -/
theorem C4_applyPatches_dispatch_witness :
    lastRootReplaceAt wPatches4 1 { op := POp.replace, path := [], value := JSVal.num 5 } ∧
    isDraftB mW10 (JSVal.num 5) = false ∧
    applyPatchesMethod 5 mW10 (JSVal.ref 0) wPatches4
      = produceMain 5 mW10 (JSVal.num 5)
          (fun draft mc => applyPatchesModule mc draft (wPatches4.drop 2)) false :=
  ⟨by decide, by decide,
   (C4_applyPatches_dispatch 5 mW10 (JSVal.ref 0) wPatches4).1 1
     { op := POp.replace, path := [], value := JSVal.num 5 } (by decide) (by decide)⟩

end ImmerModel

namespace ImmerModel

theorem Outcome.mach_ok {α : Type} (a : α) (m : Machine) : (Outcome.ok a m).mach = m := rfl

theorem Outcome.mach_err {α : Type} (e : Err) (m : Machine) :
    (Outcome.err e m : Outcome α).mach = m := rfl

/-- The observation the copy-materialization claim is about: the ghost copy
log and the provider flag of a machine are untouched. -/
def logPres (m m2 : Machine) : Prop :=
  m2.copyLog = m.copyLog ∧ m2.useProxies = m.useProxies

theorem logPres_refl (m : Machine) : logPres m m := ⟨rfl, rfl⟩

theorem logPres_trans {a b c : Machine} (h1 : logPres a b) (h2 : logPres b c) : logPres a c :=
  ⟨h2.1.trans h1.1, h2.2.trans h1.2⟩

theorem logPres_updateObjM (m : Machine) (id : Nat) (f : Obj → Obj) :
    logPres m (updateObjM m id f) := ⟨rfl, rfl⟩

theorem logPres_setStateF (m : Machine) (id : Nat) (f : DState → DState) :
    logPres m (setStateF m id f) := ⟨rfl, rfl⟩

theorem logPres_updScope (m : Machine) (sid : Nat) (f : ScopeData → ScopeData) :
    logPres m (updScope m sid f) := ⟨rfl, rfl⟩

theorem logPres_replaceOp (m : Machine) (p k v : JSVal) : logPres m (replaceOp m p k v) := by
  cases p with
  | ref pid =>
      cases halk : alookup m.heap pid with
      | none => simp [replaceOp, halk, logPres]
      | some o =>
          obtain ⟨ok, ofs, ofr, ost⟩ := o
          cases ok <;> simp only [replaceOp, halk] <;> exact ⟨rfl, rfl⟩
  | undef => exact logPres_refl m
  | nothing => exact logPres_refl m
  | num n => exact logPres_refl m
  | str s => exact logPres_refl m

theorem logPres_assignTail (m : Machine) (st0 : Option DState) (a b : Bool) (k v : JSVal) :
    logPres m (assignTail m st0 a b k v) := by
  unfold assignTail
  split
  · exact ⟨rfl, rfl⟩
  · exact logPres_refl m

theorem logPres_foldl {α : Type} (f : Machine → α → Machine)
    (hf : ∀ (a : Machine) (x : α), logPres a (f a x)) :
    ∀ (l : List α) (acc : Machine), logPres acc (l.foldl f acc) := by
  intro l
  induction l with
  | nil => intro acc; exact logPres_refl acc
  | cons hd tl ihl => intro acc; exact logPres_trans (hf acc hd) (ihl (f acc hd))

theorem logPres_runOnDelete (m : Machine) (d : JSVal) : logPres m (runOnDelete m d) := by
  unfold runOnDelete
  split
  · split
    · split
      · exact logPres_refl m
      · split
        · apply logPres_foldl
          intro a x
          dsimp only
          split
          · exact logPres_refl a
          · exact ⟨rfl, rfl⟩
        · apply logPres_foldl
          intro a x
          dsimp only
          split
          · split
            · exact logPres_refl a
            · exact ⟨rfl, rfl⟩
          · exact logPres_refl a
    · exact logPres_refl m
  · exact logPres_refl m

theorem logPres_runOnCopy (m : Machine) (d : JSVal) : logPres m (runOnCopy m d) := by
  unfold runOnCopy
  split
  · exact ⟨rfl, rfl⟩
  · exact logPres_refl m

theorem logPres_freezeRec (fuel : Nat) (m : Machine) (v : JSVal) (d : Bool) :
    logPres m (freezeRec fuel m v d) := by
  have h := freezeRec_frozenOnly fuel m v d
  exact ⟨h.2.2.2.2.2.2.2.2.2.2.2.1, h.2.2.2.2.1⟩

theorem logPres_maybeFreeze (fuel : Nat) (m : Machine) (v : JSVal) (d : Bool) :
    logPres m (maybeFreeze fuel m v d) := by
  unfold maybeFreeze
  split
  · exact logPres_freezeRec fuel m v d
  · exact logPres_refl m

theorem logPres_genPatches (m : Machine) (sid : Nat) (st : DState) (path : List JSVal) :
    logPres m (genPatches m sid st path) := ⟨rfl, rfl⟩

theorem logPres_finTail (fz : Nat) (m2 : Machine) (draft : JSVal)
    (path : Option (List JSVal)) (sid : Nat) : logPres m2 (finTail fz m2 draft path sid) := by
  simp only [finTail]
  have h3 : logPres m2 (runOnDelete m2 draft) := logPres_runOnDelete m2 draft
  have h4 : logPres m2 (runOnCopy (runOnDelete m2 draft) draft) :=
    logPres_trans h3 (logPres_runOnCopy _ draft)
  have h5 : logPres m2
      (if ((runOnCopy (runOnDelete m2 draft) draft).autoFreeze
          && canAutoFreezeB (runOnCopy (runOnDelete m2 draft) draft) sid) = true then
        freezeRec fz (runOnCopy (runOnDelete m2 draft) draft)
          ((Option.map (fun x => x.copy)
            (stateOf (runOnCopy (runOnDelete m2 draft) draft) draft)).getD JSVal.undef) false
      else runOnCopy (runOnDelete m2 draft) draft) := by
    split
    · exact logPres_trans h4 (logPres_freezeRec _ _ _ _)
    · exact h4
  set m5v := (if ((runOnCopy (runOnDelete m2 draft) draft).autoFreeze
      && canAutoFreezeB (runOnCopy (runOnDelete m2 draft) draft) sid) = true then
    freezeRec fz (runOnCopy (runOnDelete m2 draft) draft)
      ((Option.map (fun x => x.copy)
        (stateOf (runOnCopy (runOnDelete m2 draft) draft) draft)).getD JSVal.undef) false
  else runOnCopy (runOnDelete m2 draft) draft) with hm5v
  split
  · split
    · exact logPres_trans h5 (logPres_genPatches _ _ _ _)
    · exact h5
  · exact h5

end ImmerModel

namespace ImmerModel

theorem finStep_logPres : ∀ (fuel : Nat) (m : Machine) (c : FCall),
    m.useProxies = true → logPres m (finStep fuel m c).mach := by
  intro fuel
  induction fuel with
  | zero =>
    intro m c _
    exact logPres_refl m
  | succ n ih =>
    intro m c h
    cases c with
    | fin draft path sid =>
      show logPres m (finBody (finStep n) n m draft path sid).mach
      simp only [finBody]
      split
      next hstN =>
        split
        · exact logPres_refl m
        · exact ih m _ h
      next st2 hst2 =>
        split
        · exact logPres_refl m
        · split
          · exact logPres_maybeFreeze n m _ true
          · split
            · exact logPres_refl m
            · split
              next e m2 hrec =>
                have hp := ih (setStateF m (refId draft) (fun s => { s with finalized := true }))
                  (FCall.tree st2.draft path sid) h
                rw [hrec] at hp
                exact logPres_trans (logPres_setStateF m _ _) hp
              next a m2 hrec =>
                have hp := ih (setStateF m (refId draft) (fun s => { s with finalized := true }))
                  (FCall.tree st2.draft path sid) h
                rw [hrec] at hp
                have hq : logPres m (finTail n m2 draft path sid) :=
                  logPres_trans (logPres_trans (logPres_setStateF m _ _) hp)
                    (logPres_finTail n m2 draft path sid)
                split
                · exact hq
                · exact hq
    | tree rootIn rootPath sid =>
      show logPres m (treeBody (finStep n) m rootIn rootPath sid).mach
      simp only [treeBody, h, Bool.not_true, Bool.false_and, Bool.false_eq_true, if_false]
      cases hst0 : stateOf m rootIn with
      | none =>
        show logPres m ((match finStep n m (FCall.props (keysOf m rootIn) none rootIn
            (rootPath.isSome && scopePatchesPresent m sid) rootPath sid rootIn) with
          | .err e m2 => Outcome.err e m2
          | .ok _ m2 => Outcome.ok rootIn m2).mach)
        split
        next e m2 hrec =>
          have hp := ih m (FCall.props (keysOf m rootIn) none rootIn
            (rootPath.isSome && scopePatchesPresent m sid) rootPath sid rootIn) h
          rw [hrec] at hp
          exact hp
        next a m2 hrec =>
          have hp := ih m (FCall.props (keysOf m rootIn) none rootIn
            (rootPath.isSome && scopePatchesPresent m sid) rootPath sid rootIn) h
          rw [hrec] at hp
          exact hp
      | some st2 =>
        show logPres m ((match finStep n m (FCall.props (keysOf m st2.copy) (some st2) st2.copy
            (rootPath.isSome && scopePatchesPresent m sid) rootPath sid st2.copy) with
          | .err e m2 => Outcome.err e m2
          | .ok _ m2 => Outcome.ok st2.copy m2).mach)
        split
        next e m2 hrec =>
          have hp := ih m (FCall.props (keysOf m st2.copy) (some st2) st2.copy
            (rootPath.isSome && scopePatchesPresent m sid) rootPath sid st2.copy) h
          rw [hrec] at hp
          exact hp
        next a m2 hrec =>
          have hp := ih m (FCall.props (keysOf m st2.copy) (some st2) st2.copy
            (rootPath.isSome && scopePatchesPresent m sid) rootPath sid st2.copy) h
          rw [hrec] at hp
          exact hp
    | props ks st0 rootV np rp sid parentV =>
      show logPres m (propsBody (finStep n) m ks st0 rootV np rp sid parentV).mach
      cases ks with
      | nil => exact logPres_refl m
      | cons k rest =>
        simp only [propsBody]
        split
        next e m1 hrec =>
          have hp := ih m (FCall.prop st0 rootV np rp sid k (getField m parentV k) parentV) h
          rw [hrec] at hp
          exact hp
        next a m1 hrec =>
          have hp := ih m (FCall.prop st0 rootV np rp sid k (getField m parentV k) parentV) h
          rw [hrec] at hp
          have h1 : m1.useProxies = true := hp.2.trans h
          have hp2 := ih m1 (.props rest st0 rootV np rp sid parentV) h1
          exact logPres_trans hp hp2
    | prop st0 rootV np rp sid prop value parentV =>
      show logPres m (propBody (finStep n) n m st0 rootV np rp sid prop value parentV).mach
      simp only [propBody]
      split
      · exact logPres_refl m
      · split
        · split
          next e m1 hrec =>
            have hp := ih m (FCall.fin value
              (if st0.isSome && (parentV == rootV) && np && !isSetB m parentV
                  && !fhasB ((st0.map (·.assigned)).getD []) prop then
                some (rp.getD [] ++ [prop])
              else none) sid) h
            rw [hrec] at hp
            exact hp
          next v2 m1 hrec =>
            have hp := ih m (FCall.fin value
              (if st0.isSome && (parentV == rootV) && np && !isSetB m parentV
                  && !fhasB ((st0.map (·.assigned)).getD []) prop then
                some (rp.getD [] ++ [prop])
              else none) sid) h
            rw [hrec] at hp
            refine logPres_trans ?_ (logPres_assignTail _ _ _ _ _ _)
            split
            · exact logPres_trans (logPres_trans hp (logPres_replaceOp _ _ _ _))
                (logPres_updScope _ _ _)
            · exact logPres_trans hp (logPres_replaceOp _ _ _ _)
        · split
          · exact logPres_refl m
          · split
            · split
              next e m1 hrec =>
                have hp := ih m (FCall.props (keysOf m value) st0 rootV np rp sid value) h
                rw [hrec] at hp
                exact hp
              next a m1 hrec =>
                have hp := ih m (FCall.props (keysOf m value) st0 rootV np rp sid value) h
                rw [hrec] at hp
                refine logPres_trans ?_ (logPres_assignTail _ _ _ _ _ _)
                exact logPres_trans hp (logPres_maybeFreeze n m1 value false)
            · exact logPres_trans (logPres_refl m) (logPres_assignTail _ _ _ _ _ _)

end ImmerModel

namespace ImmerModel

/-- Machine for the C8 counterexample: the fallback (ES5) provider is active,
object 0 is a not-yet-written root draft of base object 1, scope 0 is open. -/
def wMachine8 : Machine :=
  { heap := [(0, { kind := ObjKind.record, fields := [(JSVal.str "x", JSVal.num 1)],
                   frozen := false,
                   state := some { base := JSVal.ref 1, copy := JSVal.undef, scope := 0,
                                   modified := false, finalized := false,
                                   draft := JSVal.ref 0, assigned := [] } }),
             (1, { kind := ObjKind.record, fields := [(JSVal.str "x", JSVal.num 1)],
                   frozen := false, state := none })],
    nextId := 2,
    scopes := [(0, { parent := none, drafts := [JSVal.ref 0], patches := none,
                     inversePatches := none, patchListener := false,
                     canAutoFreeze := true, revoked := false })],
    nextScope := 1, currentScope := some 0,
    useProxies := false, autoFreeze := false,
    onAssignHook := false, onDeleteHook := false, onCopyHook := false,
    hookLog := [], listenerCalls := [], copyLog := [] }

/-- Counterexample to C8 as stated: with the fallback provider, one write
materializes the copy (first entry in the ghost log), and finalization of the
same state assigns a second shallow clone to copy in finalizeTree, so over
the state's lifetime the copy field is assigned twice, not at most once. -/
theorem C8_copy_materialized_twice_counterexample :
    wMachine8.copyLog.count 0 = 0 ∧
    (providerWrite wMachine8 0 (JSVal.str "x") (JSVal.num 2)).copyLog.count 0 = 1 ∧
    (finalize 8 (providerWrite wMachine8 0 (JSVal.str "x") (JSVal.num 2))
        (JSVal.ref 0) (some []) 0).mach.copyLog.count 0 = 2 ∧
    ¬((finalize 8 (providerWrite wMachine8 0 (JSVal.str "x") (JSVal.num 2))
        (JSVal.ref 0) (some []) 0).mach.copyLog.count 0 ≤ 1) := by
  refine ⟨by decide, by decide, by decide, by decide⟩

/-- C8 amended: a Draft State's copy is assigned at most once per lifetime
under the capability-complete (proxy) provider — finalization never touches
the ghost copy log when useProxies is set — and the write path itself assigns
copy only at the first write (never once modified is set); under the ES5
fallback, finalizeTree performs one additional copy materialization. -/
theorem C8_amended_copy_materialized_once
    (fuel : Nat) (m : Machine) (draft : JSVal) (path : Option (List JSVal)) (sid : Nat)
    (hpx : m.useProxies = true) :
    (finalize fuel m draft path sid).mach.copyLog = m.copyLog ∧
    (∀ (m2 : Machine) (id : Nat) (k v : JSVal) (st : DState),
       stateOf m2 (JSVal.ref id) = some st → st.modified = true →
       (providerWrite m2 id k v).copyLog = m2.copyLog) := by
  constructor
  · exact (finStep_logPres fuel m (.fin draft path sid) hpx).1
  · intro m2 id k v st hst hmod
    unfold providerWrite
    rw [hst]
    simp only [hmod, if_true]
    split <;> rfl

/-- Witness for C8's amended claim: under the proxy provider a concrete
finalization leaves the copy log unchanged, and a second write to an
already-modified concrete draft does not assign copy again. -/
theorem C8_amended_copy_materialized_once_witness :
    wMachine.useProxies = true ∧
    (finalize 4 wMachine (JSVal.ref 0) none 7).mach.copyLog = wMachine.copyLog ∧
    stateOf wMachine2 (JSVal.ref 0)
      = some { base := JSVal.ref 1, copy := JSVal.undef, scope := 7, modified := true,
               finalized := false, draft := JSVal.ref 0,
               assigned := [(JSVal.str "x", true)] } ∧
    (providerWrite wMachine2 0 (JSVal.str "y") (JSVal.num 3)).copyLog = wMachine2.copyLog := by
  have h := C8_amended_copy_materialized_once 4 wMachine (JSVal.ref 0) none 7 (by decide)
  exact ⟨by decide, h.1, by decide,
    h.2 wMachine2 0 (JSVal.str "y") (JSVal.num 3)
      { base := JSVal.ref 1, copy := JSVal.undef, scope := 7, modified := true,
        finalized := false, draft := JSVal.ref 0, assigned := [(JSVal.str "x", true)] }
      (by decide) (by decide)⟩

end ImmerModel
